import Mathlib

/-!
Verification of the parallel tool-call decoding core
(`instructor/dsl/parallel.py`): the schema registry (`ParallelBase`),
its generator-based decode operation (`from_response`), and the
type-set extractor (`get_types_array`).

The Python code is shallowly embedded: the registry dict is an
association list with Python dict insert semantics (overwrite in
place, append new keys at the end), the generator is a small-step
state machine (`GenState`/`genStep`), and exceptions are explicit
error values.
-/

namespace Instructor

/-- Modelled from the spec: the decoding `Mode` enumeration lives in
`instructor.function_calls`, which is not part of the analysed source.
Only `PARALLEL_TOOLS` matters here; the other constructors stand for
the remaining modes so that "any other mode" is expressible. -/
inductive Mode where
  | PARALLEL_TOOLS
  | TOOLS
  | FUNCTIONS
  | JSON
  | MD_JSON
  deriving DecidableEq, Repr

/-- A pydantic-style validation failure: it carries the name of the
model (candidate type) whose validation failed and the underlying
cause. -/
structure ValidationErr where
  typeName : String
  cause : String
  deriving DecidableEq, Repr

/-- Modelled from the spec: a Candidate Type (an `OpenAISchema`
subclass in the source) is identified by its declared name
(`__name__`) and can validate a raw textual payload under an optional
validation context and strictness flag (`model_validate_json`).
`C` is the type of validation contexts, `R` the type of validated
instances. -/
structure CandidateType (C R : Type) where
  name : String
  validate : String → Option C → Option Bool → Except ValidationErr R

/-- A candidate type is well formed when every validation failure it
reports is tagged with its own name, as pydantic errors are. -/
def CandidateType.WF {C R : Type} (m : CandidateType C R) : Prop :=
  ∀ args ctx strict e, m.validate args ctx strict = Except.error e →
    e.typeName = m.name

/-! ### The registry dict

Python dict semantics for string keys, as used by
`self.registry = {model.__name__: model for model in models}` and
`self.registry[name]`: inserting an existing key overwrites its value
in place; a new key is appended; lookup finds the unique entry. -/

/-- Insert into a Python-style dict: overwrite the (unique) existing
entry for the key in place, otherwise append at the end. -/
def dictInsert {B : Type} (d : List (String × B)) (k : String) (v : B) :
    List (String × B) :=
  match d with
  | [] => [(k, v)]
  | p :: rest => if p.1 = k then (k, v) :: rest else p :: dictInsert rest k v

/-- Dict lookup: `d[k]`, as an `Option` (Python raises `KeyError` when
absent; the decoder turns that into an explicit error). -/
def dictGet {B : Type} (d : List (String × B)) (k : String) : Option B :=
  match d with
  | [] => none
  | p :: rest => if p.1 = k then some p.2 else dictGet rest k

/-! ### The schema registry (`ParallelBase`) -/

/-- Construction failure: `assert len(models) > 0`. -/
inductive ConstructError where
  | emptyModelSet
  deriving DecidableEq, Repr

/-- The registry dict built by
`{model.__name__: model for model in models}`. -/
def buildRegistry {C R : Type} (models : List (CandidateType C R)) :
    List (String × CandidateType C R) :=
  models.foldl (fun acc m => dictInsert acc m.name m) []

/-- The `ParallelBase` instance: the ordered tuple of supplied models
and the name-indexed registry dict. -/
structure ParallelBase (C R : Type) where
  models : List (CandidateType C R)
  registry : List (String × CandidateType C R)

/-- `ParallelBase.__init__`: assert that at least one model was
supplied, then store the models tuple and build the registry. -/
def mkParallelBase {C R : Type} (models : List (CandidateType C R)) :
    Except ConstructError (ParallelBase C R) :=
  if models.length > 0 then
    Except.ok { models := models, registry := buildRegistry models }
  else
    Except.error ConstructError.emptyModelSet

/-! ### The response shape

`from_response` reads `response.choices[0].message.tool_calls` and,
for each tool call, `tool_call.function.name` and
`tool_call.function.arguments`. -/

structure ToolFunction where
  name : String
  arguments : String
  deriving DecidableEq, Repr

structure ToolCall where
  function : ToolFunction
  deriving DecidableEq, Repr

structure Message where
  tool_calls : List ToolCall
  deriving DecidableEq, Repr

structure Choice where
  message : Message
  deriving DecidableEq, Repr

structure Response where
  choices : List Choice
  deriving DecidableEq, Repr

/-- A response whose single choice carries the given tool calls. -/
def Response.ofCalls (calls : List ToolCall) : Response :=
  { choices := [{ message := { tool_calls := calls } }] }

/-! ### The decode generator (`ParallelBase.from_response`)

`from_response` is a Python generator function: calling it runs no
body code and returns a suspended generator. The body runs on demand:
the first advance executes the mode assertion and reads
`response.choices[0].message.tool_calls`; each advance then processes
one tool call (registry lookup, then validation) and suspends at
`yield`. The embedding is a small-step machine: `GenState` is the
suspended generator, `genStep` is one advance. -/

/-- Errors the generator body can raise. -/
inductive DecodeError where
  | modeMismatch
  | indexError
  | unknownToolName (name : String)
  | validationError (err : ValidationErr)
  deriving DecidableEq, Repr

/-- A suspended decode generator: either freshly created (no body code
has run) or suspended at a `yield` with the remaining tool calls. -/
inductive GenState (C R : Type) where
  | created (pb : ParallelBase C R) (response : Response) (mode : Mode)
      (ctx : Option C) (strict : Option Bool)
  | running (pb : ParallelBase C R) (pending : List ToolCall)
      (ctx : Option C) (strict : Option Bool)

/-- The outcome of advancing the generator once. -/
inductive StepResult (C R : Type) where
  | yielded (value : R) (next : GenState C R)
  | raised (e : DecodeError)
  | done

/-- Process the next pending tool call: look the call's name up in the
registry (`KeyError` when absent), validate its raw arguments with the
matched model, passing `validation_context` and `strict` through
unchanged, and yield the validated instance. -/
def stepCalls {C R : Type} (pb : ParallelBase C R) (pending : List ToolCall)
    (ctx : Option C) (strict : Option Bool) : StepResult C R :=
  match pending with
  | [] => StepResult.done
  | tc :: rest =>
    match dictGet pb.registry tc.function.name with
    | none => StepResult.raised (DecodeError.unknownToolName tc.function.name)
    | some model =>
      match model.validate tc.function.arguments ctx strict with
      | Except.error e => StepResult.raised (DecodeError.validationError e)
      | Except.ok v => StepResult.yielded v (GenState.running pb rest ctx strict)

/-- One advance of the generator. On the first advance the body checks
`assert mode == Mode.PARALLEL_TOOLS`, then reads
`response.choices[0].message.tool_calls` and processes the first call;
later advances process one call each. -/
def genStep {C R : Type} : GenState C R → StepResult C R
  | GenState.created pb response mode ctx strict =>
    if mode = Mode.PARALLEL_TOOLS then
      match response.choices.head? with
      | none => StepResult.raised DecodeError.indexError
      | some choice => stepCalls pb choice.message.tool_calls ctx strict
    else
      StepResult.raised DecodeError.modeMismatch
  | GenState.running pb pending ctx strict => stepCalls pb pending ctx strict

/-- `ParallelBase.from_response`: being a generator function, invoking
it executes no body code and simply returns the suspended generator. -/
def ParallelBase.from_response {C R : Type} (pb : ParallelBase C R)
    (response : Response) (mode : Mode) (ctx : Option C)
    (strict : Option Bool) : GenState C R :=
  GenState.created pb response mode ctx strict

/-- What a consumer sees after at most `n` advances of the generator:
the instances yielded so far and, when the body raised within those
advances, the error. -/
def observe {C R : Type} : Nat → GenState C R → List R × Option DecodeError
  | 0, _ => ([], none)
  | n + 1, s =>
    match genStep s with
    | StepResult.done => ([], none)
    | StepResult.raised e => ([], some e)
    | StepResult.yielded v next =>
      let r := observe n next
      (v :: r.1, r.2)

/-- Draining a list of tool calls to the end (or to the first error):
the yielded instances and the terminating error, if any. -/
def runCalls {C R : Type} (pb : ParallelBase C R) :
    List ToolCall → Option C → Option Bool → List R × Option DecodeError
  | [], _, _ => ([], none)
  | tc :: rest, ctx, strict =>
    match dictGet pb.registry tc.function.name with
    | none => ([], some (DecodeError.unknownToolName tc.function.name))
    | some model =>
      match model.validate tc.function.arguments ctx strict with
      | Except.error e => ([], some (DecodeError.validationError e))
      | Except.ok v =>
        let r := runCalls pb rest ctx strict
        (v :: r.1, r.2)

/-- Draining the whole generator: every yielded instance, and the
error that ended the sequence, if any. -/
def runGen {C R : Type} : GenState C R → List R × Option DecodeError
  | GenState.created pb response mode ctx strict =>
    if mode = Mode.PARALLEL_TOOLS then
      match response.choices.head? with
      | none => ([], some DecodeError.indexError)
      | some choice => runCalls pb choice.message.tool_calls ctx strict
    else
      ([], some DecodeError.modeMismatch)
  | GenState.running pb pending ctx strict => runCalls pb pending ctx strict

/-! ### The type-set extractor (`get_types_array`)

Python typehints are embedded as a small syntax of type expressions,
with `get_origin` and `get_args` mirroring `typing.get_origin` and
`typing.get_args`: `Iterable[X]` has origin `Iterable` and args
`(X,)`; `Union[A, B]` has origin `typing.Union`; `A | B` has origin
`types.UnionType`; both have the member types as args; other generics
have their own origin; a bare type has origin `None` and no args. -/

inductive Ty where
  | base (name : String)
  | iterable (arg : Ty)
  | unionT (args : List Ty)
  | unionType (args : List Ty)
  | generic (name : String) (args : List Ty)

inductive Origin where
  | iterableO
  | unionO
  | unionTypeO
  | genericO (name : String)
  | noneO
  deriving DecidableEq, Repr

def get_origin : Ty → Origin
  | Ty.base _ => Origin.noneO
  | Ty.iterable _ => Origin.iterableO
  | Ty.unionT _ => Origin.unionO
  | Ty.unionType _ => Origin.unionTypeO
  | Ty.generic n _ => Origin.genericO n

def get_args : Ty → List Ty
  | Ty.base _ => []
  | Ty.iterable a => [a]
  | Ty.unionT args => args
  | Ty.unionType args => args
  | Ty.generic _ args => args

/-- The `TypeError` raised for a typehint that is not `Iterable[...]`;
its message interpolates the offending typehint, which the error value
records. -/
inductive ExtractError where
  | invalidTypeShape (offending : Ty)

/-- `get_types_array`: require origin `Iterable`, then return the args
of the single type argument when that argument is a `typing.Union` or
a `types.UnionType`, and the args of the typehint itself (a one-tuple)
otherwise. An `Iterable` generic always carries exactly one type
argument, so the `headD` default is unreachable. -/
def get_types_array (typehint : Ty) : Except ExtractError (List Ty) :=
  if get_origin typehint ≠ Origin.iterableO then
    Except.error (ExtractError.invalidTypeShape typehint)
  else if get_origin ((get_args typehint).headD (Ty.base "")) = Origin.unionO then
    Except.ok (get_args ((get_args typehint).headD (Ty.base "")))
  else if get_origin ((get_args typehint).headD (Ty.base "")) = Origin.unionTypeO then
    Except.ok (get_args ((get_args typehint).headD (Ty.base "")))
  else
    Except.ok (get_args typehint)

/-- The registry a suspended generator will use. -/
def statePB {C R : Type} : GenState C R → ParallelBase C R
  | GenState.created pb _ _ _ _ => pb
  | GenState.running pb _ _ _ => pb

/-- The validation context a suspended generator will pass through. -/
def stateCtx {C R : Type} : GenState C R → Option C
  | GenState.created _ _ _ ctx _ => ctx
  | GenState.running _ _ ctx _ => ctx

/-- The strictness flag a suspended generator will pass through. -/
def stateStrict {C R : Type} : GenState C R → Option Bool
  | GenState.created _ _ _ _ strict => strict
  | GenState.running _ _ _ strict => strict

/-! ### Concrete fixtures

Small concrete candidate types, registry and calls, mirroring the
`Weather`-style examples of the spec, used to instantiate the claim
theorems on computable inputs. -/

/-- A candidate type named `Weather`: rejects an empty payload with a
missing-field error tagged with its own name, and validates any other
payload. -/
def weather : CandidateType Nat String :=
  { name := "Weather"
    validate := fun args _ _ =>
      if args = "" then
        Except.error { typeName := "Weather", cause := "city field required" }
      else
        Except.ok ("Weather:" ++ args) }

/-- A candidate type named `News` that validates every payload. -/
def news : CandidateType Nat String :=
  { name := "News"
    validate := fun args _ _ => Except.ok ("News:" ++ args) }

/-- A second candidate type also named `Weather`, for the duplicate
name scenario. -/
def weather2 : CandidateType Nat String :=
  { name := "Weather"
    validate := fun args _ _ => Except.ok ("Weather2:" ++ args) }

/-- A registry over the `Weather` and `News` candidate types. -/
def pbW : ParallelBase Nat String :=
  { models := [weather, news], registry := buildRegistry [weather, news] }

/-- A tool call named `Weather` with the given raw arguments. -/
def callW (args : String) : ToolCall :=
  { function := { name := "Weather", arguments := args } }

/-- A tool call named `News` with the given raw arguments. -/
def callN (args : String) : ToolCall :=
  { function := { name := "News", arguments := args } }

/-- A tool call whose name is registered under no candidate type. -/
def callU : ToolCall :=
  { function := { name := "Unknown", arguments := "{}" } }

/-! ### Dict lemmas -/

/-- The last element of `models` bearing the name `nm`, if any: the
value a Python dict comprehension leaves under the key `nm`. -/
def lastWithName {C R : Type} (models : List (CandidateType C R))
    (nm : String) : Option (CandidateType C R) :=
  match models with
  | [] => none
  | m :: rest =>
    match lastWithName rest nm with
    | some r => some r
    | none => if m.name = nm then some m else none

theorem dictGet_dictInsert {B : Type} (d : List (String × B)) (k nm : String)
    (v : B) :
    dictGet (dictInsert d k v) nm = if nm = k then some v else dictGet d nm := by
  induction d with
  | nil =>
    by_cases h : nm = k
    · simp [dictInsert, dictGet, h]
    · have hkn : ¬ k = nm := fun hc => h hc.symm
      simp [dictInsert, dictGet, h, hkn]
  | cons p rest ih =>
    by_cases hp : p.1 = k
    · by_cases h : nm = k
      · simp [dictInsert, dictGet, hp, h]
      · have hkn : ¬ k = nm := fun hc => h hc.symm
        have hpn : ¬ p.1 = nm := fun hc => h (hc.symm.trans hp)
        simp [dictInsert, dictGet, hp, h, hkn, hpn]
    · by_cases h : nm = k
      · subst h
        simp [dictInsert, dictGet, hp, ih]
      · by_cases hpn : p.1 = nm
        · simp [dictInsert, dictGet, hp, h, hpn, ih]
        · simp [dictInsert, dictGet, hp, h, hpn, ih]

theorem dictGet_foldl_insert {C R : Type} (models : List (CandidateType C R)) :
    ∀ (d : List (String × CandidateType C R)) (nm : String),
      dictGet (models.foldl (fun acc m => dictInsert acc m.name m) d) nm
        = match lastWithName models nm with
          | some r => some r
          | none => dictGet d nm := by
  induction models with
  | nil => intro d nm; rfl
  | cons m rest ih =>
    intro d nm
    have step :
        (m :: rest).foldl (fun acc m => dictInsert acc m.name m) d
          = rest.foldl (fun acc m => dictInsert acc m.name m)
              (dictInsert d m.name m) := rfl
    rw [step, ih]
    cases hrest : lastWithName rest nm with
    | some r => simp [lastWithName, hrest]
    | none =>
      by_cases h : m.name = nm
      · simp [lastWithName, hrest, h, dictGet_dictInsert]
      · have hn : ¬ nm = m.name := fun hc => h hc.symm
        simp [lastWithName, hrest, h, dictGet_dictInsert, hn]

theorem dictGet_buildRegistry {C R : Type} (models : List (CandidateType C R))
    (nm : String) :
    dictGet (buildRegistry models) nm = lastWithName models nm := by
  rw [buildRegistry, dictGet_foldl_insert]
  cases lastWithName models nm <;> simp [dictGet]

theorem lastWithName_of_not_mem {C R : Type}
    {models : List (CandidateType C R)} {nm : String}
    (h : ∀ m ∈ models, m.name ≠ nm) : lastWithName models nm = none := by
  induction models with
  | nil => rfl
  | cons m rest ih =>
    have hrest : lastWithName rest nm = none :=
      ih (fun x hx => h x (List.mem_cons_of_mem m hx))
    have hm : m.name ≠ nm := h m (List.mem_cons_self m rest)
    simp [lastWithName, hrest, hm]

theorem lastWithName_distinct {C R : Type}
    {models : List (CandidateType C R)} {m : CandidateType C R}
    (hd : models.Pairwise (fun x y => x.name ≠ y.name)) (hm : m ∈ models) :
    lastWithName models m.name = some m := by
  induction models with
  | nil => cases hm
  | cons a rest ih =>
    rcases List.pairwise_cons.mp hd with ⟨ha, hrest⟩
    rcases List.mem_cons.mp hm with hom | hom
    · subst hom
      have : lastWithName rest m.name = none := lastWithName_of_not_mem
        (fun x hx => fun hc => (ha x hx) hc.symm)
      simp [lastWithName, this]
    · have : lastWithName rest m.name = some m := ih hrest hom
      simp [lastWithName, this]

theorem dictInsert_mem {B : Type} {d : List (String × B)} {k : String} {v : B} :
    ∀ q ∈ dictInsert d k v, q = (k, v) ∨ q ∈ d := by
  induction d with
  | nil => intro q hq; simp [dictInsert] at hq; exact Or.inl hq
  | cons p rest ih =>
    intro q hq
    by_cases hp : p.1 = k
    · simp [dictInsert, hp] at hq
      rcases hq with hq | hq
      · exact Or.inl hq
      · exact Or.inr (List.mem_cons_of_mem p hq)
    · simp [dictInsert, hp] at hq
      rcases hq with hq | hq
      · exact Or.inr (by simp [hq])
      · rcases ih q hq with hh | hh
        · exact Or.inl hh
        · exact Or.inr (List.mem_cons_of_mem p hh)

theorem dictInsert_length_not_mem {B : Type} {d : List (String × B)}
    {k : String} (v : B) (h : ∀ q ∈ d, q.1 ≠ k) :
    (dictInsert d k v).length = d.length + 1 := by
  induction d with
  | nil => rfl
  | cons p rest ih =>
    have hp : p.1 ≠ k := h p (List.mem_cons_self p rest)
    simp only [dictInsert, if_neg hp, List.length_cons]
    rw [ih (fun q hq => h q (List.mem_cons_of_mem p hq))]

theorem buildRegistry_length_aux {C R : Type} (models : List (CandidateType C R)) :
    ∀ d, models.Pairwise (fun x y => x.name ≠ y.name) →
      (∀ m ∈ models, ∀ q ∈ d, q.1 ≠ m.name) →
      (models.foldl (fun acc m => dictInsert acc m.name m) d).length
        = d.length + models.length := by
  induction models with
  | nil => intro d _ _; rfl
  | cons m rest ih =>
    intro d hd hfresh
    rcases List.pairwise_cons.mp hd with ⟨hm, hrest⟩
    have step :
        (m :: rest).foldl (fun acc m => dictInsert acc m.name m) d
          = rest.foldl (fun acc m => dictInsert acc m.name m)
              (dictInsert d m.name m) := rfl
    rw [step, ih (dictInsert d m.name m) hrest ?_]
    · rw [dictInsert_length_not_mem m
        (fun q hq => hfresh m (List.mem_cons_self m rest) q hq)]
      simp [List.length_cons]
      omega
    · intro x hx q hq
      rcases dictInsert_mem q hq with hh | hh
      · rw [hh]
        exact fun hc => (hm x hx) hc
      · exact hfresh x (List.mem_cons_of_mem m hx) q hh

theorem buildRegistry_length_distinct {C R : Type}
    {models : List (CandidateType C R)}
    (hd : models.Pairwise (fun x y => x.name ≠ y.name)) :
    (buildRegistry models).length = models.length := by
  have := buildRegistry_length_aux models [] hd (by intro m _ q hq; cases hq)
  simpa [buildRegistry] using this

/-! ### Generator lemmas -/

/-- `observe` only looks at a state through `genStep`. -/
theorem observe_congr {C R : Type} {s₁ s₂ : GenState C R}
    (h : genStep s₁ = genStep s₂) (n : Nat) : observe n s₁ = observe n s₂ := by
  cases n with
  | zero => rfl
  | succ n => simp only [observe, h]

theorem genStep_created_ofCalls {C R : Type} (pb : ParallelBase C R)
    (calls : List ToolCall) (ctx : Option C) (strict : Option Bool) :
    genStep (GenState.created pb (Response.ofCalls calls) Mode.PARALLEL_TOOLS
        ctx strict)
      = genStep (GenState.running pb calls ctx strict) := rfl

/-- Observing `n` advances of a suspended generator consumes at most
the first `n` pending calls. -/
theorem observe_running {C R : Type} (pb : ParallelBase C R) (ctx : Option C)
    (strict : Option Bool) :
    ∀ (n : Nat) (calls : List ToolCall),
      observe n (GenState.running pb calls ctx strict)
        = runCalls pb (calls.take n) ctx strict := by
  intro n
  induction n with
  | zero => intro calls; rfl
  | succ n ih =>
    intro calls
    cases calls with
    | nil => rfl
    | cons tc rest =>
      cases hd : dictGet pb.registry tc.function.name with
      | none => simp [observe, genStep, stepCalls, runCalls, hd]
      | some model =>
        cases hv : model.validate tc.function.arguments ctx strict with
        | error e => simp [observe, genStep, stepCalls, runCalls, hd, hv]
        | ok v => simp [observe, genStep, stepCalls, runCalls, hd, hv, ih rest]

/-- Observing `n` advances of a freshly created generator in parallel
mode consumes at most the first `n` calls of the response. -/
theorem observe_created {C R : Type} (pb : ParallelBase C R)
    (calls : List ToolCall) (ctx : Option C) (strict : Option Bool) (n : Nat) :
    observe n (GenState.created pb (Response.ofCalls calls)
        Mode.PARALLEL_TOOLS ctx strict)
      = runCalls pb (calls.take n) ctx strict := by
  rw [observe_congr (genStep_created_ofCalls pb calls ctx strict) n]
  exact observe_running pb ctx strict n calls

theorem runGen_created_ofCalls {C R : Type} (pb : ParallelBase C R)
    (calls : List ToolCall) (ctx : Option C) (strict : Option Bool) :
    runGen (GenState.created pb (Response.ofCalls calls) Mode.PARALLEL_TOOLS
        ctx strict)
      = runCalls pb calls ctx strict := rfl

/-- When every call resolves and validates, draining yields exactly
one instance per call, in order, each one the result of validating
that call's raw payload with the model registered under its name. -/
theorem runCalls_ok {C R : Type} (pb : ParallelBase C R) (ctx : Option C)
    (strict : Option Bool) :
    ∀ calls : List ToolCall,
      (∀ tc ∈ calls, ∃ m v, dictGet pb.registry tc.function.name = some m ∧
          m.validate tc.function.arguments ctx strict = Except.ok v) →
      (runCalls pb calls ctx strict).2 = none ∧
      (runCalls pb calls ctx strict).1.length = calls.length ∧
      ∀ (i : Nat) (tc : ToolCall), calls[i]? = some tc →
        ∃ m, dictGet pb.registry tc.function.name = some m ∧
          ∃ v, (runCalls pb calls ctx strict).1[i]? = some v ∧
            m.validate tc.function.arguments ctx strict = Except.ok v := by
  intro calls
  induction calls with
  | nil =>
    intro _
    refine ⟨rfl, rfl, ?_⟩
    intro i tc h
    simp at h
  | cons tc rest ih =>
    intro h
    rcases h tc (List.mem_cons_self tc rest) with ⟨m, v, hm, hv⟩
    rcases ih (fun x hx => h x (List.mem_cons_of_mem tc hx)) with
      ⟨htl2, htl1, htlp⟩
    have hrun : runCalls pb (tc :: rest) ctx strict
        = (v :: (runCalls pb rest ctx strict).1,
           (runCalls pb rest ctx strict).2) := by
      simp [runCalls, hm, hv]
    refine ⟨by rw [hrun]; exact htl2, by rw [hrun]; simp [htl1], ?_⟩
    intro i tc0 hi
    cases i with
    | zero =>
      simp at hi
      subst hi
      exact ⟨m, hm, v, by rw [hrun]; simp, hv⟩
    | succ i =>
      simp at hi
      rcases htlp i tc0 (by simpa using hi) with ⟨m0, hm0, v0, hv0, hval0⟩
      exact ⟨m0, hm0, v0, by rw [hrun]; simpa using hv0, hval0⟩

/-- Draining past a prefix whose calls all resolve and validate simply
prepends that prefix's instances to the rest of the drain. -/
theorem runCalls_append {C R : Type} (pb : ParallelBase C R) (ctx : Option C)
    (strict : Option Bool) :
    ∀ (pre l2 : List ToolCall),
      (∀ tc ∈ pre, ∃ m v, dictGet pb.registry tc.function.name = some m ∧
          m.validate tc.function.arguments ctx strict = Except.ok v) →
      runCalls pb (pre ++ l2) ctx strict
        = ((runCalls pb pre ctx strict).1 ++ (runCalls pb l2 ctx strict).1,
           (runCalls pb l2 ctx strict).2) := by
  intro pre
  induction pre with
  | nil => intro l2 _; simp [runCalls]
  | cons tc rest ih =>
    intro l2 h
    rcases h tc (List.mem_cons_self tc rest) with ⟨m, v, hm, hv⟩
    have := ih l2 (fun x hx => h x (List.mem_cons_of_mem tc hx))
    simp [runCalls, hm, hv, this]

/-- Draining via `from_response` in parallel mode drains the calls of
the single-choice response. -/
theorem runGen_from_response {C R : Type} (pb : ParallelBase C R)
    (calls : List ToolCall) (ctx : Option C) (strict : Option Bool) :
    runGen (pb.from_response (Response.ofCalls calls) Mode.PARALLEL_TOOLS
        ctx strict)
      = runCalls pb calls ctx strict := rfl

/-- `observe_created`, restated on `from_response`. -/
theorem observe_from_response {C R : Type} (pb : ParallelBase C R)
    (calls : List ToolCall) (ctx : Option C) (strict : Option Bool) (n : Nat) :
    observe n (pb.from_response (Response.ofCalls calls) Mode.PARALLEL_TOOLS
        ctx strict)
      = runCalls pb (calls.take n) ctx strict :=
  observe_created pb calls ctx strict n

/-- A yielded step comes from a nonempty pending list and suspends
with the same registry, context and strictness flag, minus the one
processed call. -/
theorem stepCalls_yielded {C R : Type} {pb : ParallelBase C R}
    {pending : List ToolCall} {ctx : Option C} {strict : Option Bool}
    {v : R} {next : GenState C R}
    (h : stepCalls pb pending ctx strict = StepResult.yielded v next) :
    ∃ tc rest, pending = tc :: rest ∧
      next = GenState.running pb rest ctx strict := by
  cases pending with
  | nil => cases h
  | cons tc rest =>
    refine ⟨tc, rest, rfl, ?_⟩
    simp only [stepCalls] at h
    cases hd : dictGet pb.registry tc.function.name with
    | none => rw [hd] at h; cases h
    | some model =>
      rw [hd] at h
      cases hv : model.validate tc.function.arguments ctx strict with
      | error e => simp only [hv] at h; cases h
      | ok w =>
        simp only [hv] at h
        cases h
        rfl

/-! ### Claim theorems -/

/-- Claim C2: for a typehint `Iterable` over a union of member types
`T1..Tn` (n ≥ 1, via either `typing.Union` or the `|` operator),
`get_types_array` returns exactly `(T1,...,Tn)` in declared order; for
`Iterable[T]` with a single non-union argument it returns the
one-element tuple `(T,)`; and an `Iterable` over a single-member union
yields the same one-element result as the non-union form. -/
theorem get_types_array_extracts_members (ts : List Ty) (t : Ty)
    (hn : ts ≠ []) (ht1 : get_origin t ≠ Origin.unionO)
    (ht2 : get_origin t ≠ Origin.unionTypeO) :
    get_types_array (Ty.iterable (Ty.unionT ts)) = Except.ok ts ∧
    get_types_array (Ty.iterable (Ty.unionType ts)) = Except.ok ts ∧
    get_types_array (Ty.iterable t) = Except.ok [t] ∧
    get_types_array (Ty.iterable (Ty.unionT [t]))
      = get_types_array (Ty.iterable t) := by
  have h0 : ¬ (get_origin (Ty.iterable t) ≠ Origin.iterableO) := by
    simp [get_origin]
  have h3 : get_types_array (Ty.iterable t) = Except.ok [t] := by
    unfold get_types_array
    rw [if_neg h0]
    have hh : (get_args (Ty.iterable t)).headD (Ty.base "") = t := rfl
    rw [hh, if_neg ht1, if_neg ht2]
    rfl
  refine ⟨?_, ?_, h3, ?_⟩
  · simp [get_types_array, get_origin, get_args]
  · simp [get_types_array, get_origin, get_args]
  · rw [h3]
    simp [get_types_array, get_origin, get_args]

theorem get_types_array_extracts_members_witness :
    get_types_array (Ty.iterable (Ty.unionT [Ty.base "Weather", Ty.base "News"]))
      = Except.ok [Ty.base "Weather", Ty.base "News"] ∧
    get_types_array (Ty.iterable (Ty.unionType [Ty.base "Weather", Ty.base "News"]))
      = Except.ok [Ty.base "Weather", Ty.base "News"] ∧
    get_types_array (Ty.iterable (Ty.base "int")) = Except.ok [Ty.base "int"] ∧
    get_types_array (Ty.iterable (Ty.unionT [Ty.base "int"]))
      = get_types_array (Ty.iterable (Ty.base "int")) := by
  have h2 := get_types_array_extracts_members
    [Ty.base "Weather", Ty.base "News"] (Ty.base "int")
    (by simp) (by simp [get_origin]) (by simp [get_origin])
  exact ⟨h2.1, h2.2.1, h2.2.2.1, h2.2.2.2⟩

/-- Claim C3: for every typehint whose origin is not `Iterable`,
`get_types_array` fails with the `TypeError` (`InvalidTypeShape`) that
names the offending declaration, and returns no tuple. -/
theorem get_types_array_rejects_non_iterable (typehint : Ty)
    (h : get_origin typehint ≠ Origin.iterableO) :
    get_types_array typehint
      = Except.error (ExtractError.invalidTypeShape typehint) := by
  simp [get_types_array, h]

theorem get_types_array_rejects_non_iterable_witness :
    get_types_array (Ty.generic "list" [Ty.base "int"])
      = Except.error (ExtractError.invalidTypeShape
          (Ty.generic "list" [Ty.base "int"])) :=
  get_types_array_rejects_non_iterable (Ty.generic "list" [Ty.base "int"])
    (by simp [get_origin])

/-- Claim C4: constructing a `ParallelBase` from zero candidate types
fails with the assertion-style `EmptyModelSet` error; constructing it
from k ≥ 1 types with pairwise-distinct names succeeds, its
name-to-type mapping has exactly k entries binding each type's
declared name to that type, and the registry exposes the original
candidate types as a tuple in the order supplied. -/
theorem mkParallelBase_construction {C R : Type}
    (models : List (CandidateType C R)) (hne : models ≠ [])
    (hd : models.Pairwise (fun x y => x.name ≠ y.name)) :
    mkParallelBase ([] : List (CandidateType C R))
      = Except.error ConstructError.emptyModelSet ∧
    ∃ pb, mkParallelBase models = Except.ok pb ∧
      pb.models = models ∧
      pb.registry.length = models.length ∧
      ∀ m ∈ models, dictGet pb.registry m.name = some m := by
  refine ⟨rfl,
    ⟨{ models := models, registry := buildRegistry models }, ?_, rfl, ?_, ?_⟩⟩
  · simp [mkParallelBase, List.length_pos.mpr hne]
  · exact buildRegistry_length_distinct hd
  · intro m hm
    rw [dictGet_buildRegistry]
    exact lastWithName_distinct hd hm

theorem mkParallelBase_construction_witness :
    mkParallelBase ([] : List (CandidateType Nat String))
      = Except.error ConstructError.emptyModelSet ∧
    ∃ pb, mkParallelBase [weather, news] = Except.ok pb ∧
      pb.models = [weather, news] ∧
      pb.registry.length = [weather, news].length ∧
      ∀ m ∈ [weather, news], dictGet pb.registry m.name = some m :=
  mkParallelBase_construction [weather, news] (List.cons_ne_nil _ _)
    (by simp [List.pairwise_cons, weather, news])

/-- Claim C9: when two or more supplied candidate types share a
declared name, construction does not detect or reject the collision:
it succeeds, the mapping binds each name to the last-supplied type
bearing it (silent last-write-wins), and the exposed models tuple
still contains every supplied type in order. -/
theorem mkParallelBase_last_write_wins {C R : Type}
    (models : List (CandidateType C R)) (h : models ≠ []) :
    ∃ pb, mkParallelBase models = Except.ok pb ∧
      pb.models = models ∧
      ∀ nm : String, dictGet pb.registry nm = lastWithName models nm := by
  refine ⟨{ models := models, registry := buildRegistry models }, ?_, rfl, ?_⟩
  · simp [mkParallelBase, List.length_pos.mpr h]
  · intro nm
    exact dictGet_buildRegistry models nm

theorem mkParallelBase_last_write_wins_witness :
    (∃ pb, mkParallelBase [weather, weather2] = Except.ok pb ∧
      pb.models = [weather, weather2] ∧
      ∀ nm : String,
        dictGet pb.registry nm = lastWithName [weather, weather2] nm) ∧
    lastWithName [weather, weather2] "Weather" = some weather2 :=
  ⟨mkParallelBase_last_write_wins [weather, weather2] (List.cons_ne_nil _ _),
   rfl⟩

/-- Claim C5: for every mode other than `PARALLEL_TOOLS`, the decode
sequence fails with the `ModeMismatch` assertion error at its very
first advance — for every response whatsoever, so before reading or
processing any of the response's calls — and yields no instance. -/
theorem decode_mode_mismatch {C R : Type} (pb : ParallelBase C R)
    (mode : Mode) (ctx : Option C) (strict : Option Bool)
    (h : mode ≠ Mode.PARALLEL_TOOLS) :
    ∀ response : Response,
      genStep (pb.from_response response mode ctx strict)
        = StepResult.raised DecodeError.modeMismatch ∧
      runGen (pb.from_response response mode ctx strict)
        = ([], some DecodeError.modeMismatch) := by
  intro response
  constructor
  · simp [ParallelBase.from_response, genStep, h]
  · simp [ParallelBase.from_response, runGen, h]

theorem decode_mode_mismatch_witness :
    genStep (pbW.from_response (Response.ofCalls [callW "paris"]) Mode.TOOLS
        none none)
      = StepResult.raised DecodeError.modeMismatch ∧
    runGen (pbW.from_response (Response.ofCalls [callW "paris"]) Mode.TOOLS
        none none)
      = ([], some DecodeError.modeMismatch) :=
  decode_mode_mismatch pbW Mode.TOOLS none none (by decide)
    (Response.ofCalls [callW "paris"])

/-- Claim C10: for a mode other than `PARALLEL_TOOLS`, merely invoking
`from_response` raises nothing and returns the suspended generator;
the mode assertion fires only when the sequence is first advanced, and
no instance is ever yielded. -/
theorem from_response_defers_mode_assert {C R : Type} (pb : ParallelBase C R)
    (response : Response) (mode : Mode) (ctx : Option C)
    (strict : Option Bool) (h : mode ≠ Mode.PARALLEL_TOOLS) :
    pb.from_response response mode ctx strict
      = GenState.created pb response mode ctx strict ∧
    observe 0 (pb.from_response response mode ctx strict) = ([], none) ∧
    ∀ n : Nat, observe (n + 1) (pb.from_response response mode ctx strict)
      = ([], some DecodeError.modeMismatch) := by
  refine ⟨rfl, rfl, ?_⟩
  intro n
  simp [observe, ParallelBase.from_response, genStep, h]

theorem from_response_defers_mode_assert_witness :
    pbW.from_response (Response.ofCalls [callW "paris"]) Mode.JSON none none
      = GenState.created pbW (Response.ofCalls [callW "paris"]) Mode.JSON
          none none ∧
    observe 0 (pbW.from_response (Response.ofCalls [callW "paris"]) Mode.JSON
        none none)
      = ([], none) ∧
    ∀ n : Nat,
      observe (n + 1) (pbW.from_response (Response.ofCalls [callW "paris"])
          Mode.JSON none none)
        = ([], some DecodeError.modeMismatch) :=
  from_response_defers_mode_assert pbW (Response.ofCalls [callW "paris"])
    Mode.JSON none none (by decide)

/-- Claim C8: decoding is deterministic and idempotent: with the same
registry, response, mode, context and strictness flag, two drains (and
two partial observations) of the decode generator are equal; moreover
a yielding step never changes the registry, the context or the
strictness flag a suspended generator carries, so a re-readable
response decodes identically on every run. -/
theorem decode_deterministic {C R : Type} (pb : ParallelBase C R)
    (response : Response) (mode : Mode) (ctx : Option C)
    (strict : Option Bool) :
    runGen (pb.from_response response mode ctx strict)
      = runGen (pb.from_response response mode ctx strict) ∧
    (∀ n : Nat, observe n (pb.from_response response mode ctx strict)
      = observe n (pb.from_response response mode ctx strict)) ∧
    ∀ (s : GenState C R) (v : R) (next : GenState C R),
      genStep s = StepResult.yielded v next →
      statePB next = statePB s ∧ stateCtx next = stateCtx s ∧
        stateStrict next = stateStrict s := by
  refine ⟨rfl, fun _ => rfl, ?_⟩
  intro s v next h
  cases s with
  | created pb0 resp0 mode0 ctx0 strict0 =>
    simp only [genStep] at h
    by_cases hm : mode0 = Mode.PARALLEL_TOOLS
    · rw [if_pos hm] at h
      cases hh : resp0.choices.head? with
      | none => rw [hh] at h; cases h
      | some choice =>
        rw [hh] at h
        rcases stepCalls_yielded h with ⟨tc, rest, _, hn⟩
        subst hn
        exact ⟨rfl, rfl, rfl⟩
    · rw [if_neg hm] at h
      cases h
  | running pb0 pending ctx0 strict0 =>
    rcases stepCalls_yielded h with ⟨tc, rest, _, hn⟩
    subst hn
    exact ⟨rfl, rfl, rfl⟩

theorem decode_deterministic_witness :
    runGen (pbW.from_response (Response.ofCalls [callN "x"])
        Mode.PARALLEL_TOOLS none none)
      = runGen (pbW.from_response (Response.ofCalls [callN "x"])
          Mode.PARALLEL_TOOLS none none) ∧
    statePB (GenState.running pbW ([] : List ToolCall) none none)
        = statePB (GenState.running pbW [callN "x"] none none) ∧
      stateCtx (GenState.running pbW ([] : List ToolCall) none none)
        = stateCtx (GenState.running pbW [callN "x"] none none) ∧
      stateStrict (GenState.running pbW ([] : List ToolCall) none none)
        = stateStrict (GenState.running pbW [callN "x"] none none) :=
  ⟨(decode_deterministic pbW (Response.ofCalls [callN "x"])
      Mode.PARALLEL_TOOLS none none).1,
   (decode_deterministic pbW (Response.ofCalls [callN "x"])
      Mode.PARALLEL_TOOLS none none).2.2
     (GenState.running pbW [callN "x"] none none) "News:x"
     (GenState.running pbW ([] : List ToolCall) none none) rfl⟩

/-- Claim C1: with the parallel-tools mode, for a response whose calls
all carry registered names and payloads their matched candidate types
validate, the decode generator yields exactly one validated instance
per call, in the response's own call order, validating each call's raw
argument payload against the type registered under the call's name
with `validation_context` and `strict` passed through unchanged; and
the sequence is lazy: observing `k` elements depends only on the first
`k` calls of the response. -/
theorem decode_all_calls {C R : Type} (pb : ParallelBase C R)
    (calls : List ToolCall) (ctx : Option C) (strict : Option Bool)
    (h : ∀ tc ∈ calls, ∃ m v, dictGet pb.registry tc.function.name = some m ∧
        m.validate tc.function.arguments ctx strict = Except.ok v) :
    (runGen (pb.from_response (Response.ofCalls calls) Mode.PARALLEL_TOOLS
        ctx strict)).2 = none ∧
    (runGen (pb.from_response (Response.ofCalls calls) Mode.PARALLEL_TOOLS
        ctx strict)).1.length = calls.length ∧
    (∀ (i : Nat) (tc : ToolCall), calls[i]? = some tc →
      ∃ m, dictGet pb.registry tc.function.name = some m ∧
        ∃ v, (runGen (pb.from_response (Response.ofCalls calls)
            Mode.PARALLEL_TOOLS ctx strict)).1[i]? = some v ∧
          m.validate tc.function.arguments ctx strict = Except.ok v) ∧
    ∀ k : Nat,
      observe k (pb.from_response (Response.ofCalls calls) Mode.PARALLEL_TOOLS
          ctx strict)
        = observe k (pb.from_response (Response.ofCalls (calls.take k))
            Mode.PARALLEL_TOOLS ctx strict) := by
  rcases runCalls_ok pb ctx strict calls h with ⟨h2, h1, hp⟩
  rw [runGen_from_response]
  refine ⟨h2, h1, hp, ?_⟩
  intro k
  rw [observe_from_response, observe_from_response, List.take_take,
    Nat.min_self]

theorem decode_all_calls_witness :
    (runGen (pbW.from_response (Response.ofCalls [callW "paris", callN "story"])
        Mode.PARALLEL_TOOLS none none)).2 = none ∧
    (runGen (pbW.from_response (Response.ofCalls [callW "paris", callN "story"])
        Mode.PARALLEL_TOOLS none none)).1.length
      = [callW "paris", callN "story"].length ∧
    (∀ (i : Nat) (tc : ToolCall), [callW "paris", callN "story"][i]? = some tc →
      ∃ m, dictGet pbW.registry tc.function.name = some m ∧
        ∃ v, (runGen (pbW.from_response
            (Response.ofCalls [callW "paris", callN "story"])
            Mode.PARALLEL_TOOLS none none)).1[i]? = some v ∧
          m.validate tc.function.arguments none none = Except.ok v) ∧
    ∀ k : Nat,
      observe k (pbW.from_response (Response.ofCalls [callW "paris", callN "story"])
          Mode.PARALLEL_TOOLS none none)
        = observe k (pbW.from_response
            (Response.ofCalls ([callW "paris", callN "story"].take k))
            Mode.PARALLEL_TOOLS none none) := by
  refine decode_all_calls pbW [callW "paris", callN "story"] none none ?_
  intro tc htc
  rcases List.mem_cons.mp htc with rfl | htc
  · exact ⟨weather, "Weather:" ++ "paris", rfl, rfl⟩
  rcases List.mem_cons.mp htc with rfl | htc
  · exact ⟨news, "News:" ++ "story", rfl, rfl⟩
  · cases htc

/-- Claim C6: when a response carries a call whose name is absent from
the registry (after a prefix of decodable calls), the decode sequence
raises the `KeyError`-equivalent `UnknownToolName` naming the missing
key at that call's position; every earlier call was already yielded to
the consumer and is not retracted, and no instance is produced for the
offending call or any later call. -/
theorem decode_unknown_tool_name {C R : Type} (pb : ParallelBase C R)
    (pre rest : List ToolCall) (bad : ToolCall) (ctx : Option C)
    (strict : Option Bool)
    (hpre : ∀ tc ∈ pre, ∃ m v, dictGet pb.registry tc.function.name = some m ∧
        m.validate tc.function.arguments ctx strict = Except.ok v)
    (hbad : dictGet pb.registry bad.function.name = none) :
    ∃ outs : List R,
      runGen (pb.from_response (Response.ofCalls (pre ++ bad :: rest))
          Mode.PARALLEL_TOOLS ctx strict)
        = (outs, some (DecodeError.unknownToolName bad.function.name)) ∧
      outs.length = pre.length ∧
      (∀ (i : Nat) (tc : ToolCall), pre[i]? = some tc →
        ∃ m, dictGet pb.registry tc.function.name = some m ∧
          ∃ v, outs[i]? = some v ∧
            m.validate tc.function.arguments ctx strict = Except.ok v) ∧
      observe pre.length (pb.from_response (Response.ofCalls (pre ++ bad :: rest))
          Mode.PARALLEL_TOOLS ctx strict)
        = (outs, none) := by
  rcases runCalls_ok pb ctx strict pre hpre with ⟨hp2, hp1, hpp⟩
  have hbadrun : runCalls pb (bad :: rest) ctx strict
      = ([], some (DecodeError.unknownToolName bad.function.name)) := by
    simp [runCalls, hbad]
  have happ := runCalls_append pb ctx strict pre (bad :: rest) hpre
  refine ⟨(runCalls pb pre ctx strict).1, ?_, hp1, hpp, ?_⟩
  · rw [runGen_from_response, happ, hbadrun]
    simp
  · rw [observe_from_response, List.take_left]
    exact Prod.ext rfl hp2

theorem decode_unknown_tool_name_witness :
    ∃ outs : List String,
      runGen (pbW.from_response (Response.ofCalls ([callN "n1"] ++ callU :: [callW "x"]))
          Mode.PARALLEL_TOOLS none none)
        = (outs, some (DecodeError.unknownToolName callU.function.name)) ∧
      outs.length = [callN "n1"].length ∧
      (∀ (i : Nat) (tc : ToolCall), [callN "n1"][i]? = some tc →
        ∃ m, dictGet pbW.registry tc.function.name = some m ∧
          ∃ v, outs[i]? = some v ∧
            m.validate tc.function.arguments none none = Except.ok v) ∧
      observe [callN "n1"].length
          (pbW.from_response (Response.ofCalls ([callN "n1"] ++ callU :: [callW "x"]))
            Mode.PARALLEL_TOOLS none none)
        = (outs, none) := by
  refine decode_unknown_tool_name pbW [callN "n1"] [callW "x"] callU none none
    ?_ rfl
  intro tc htc
  rcases List.mem_cons.mp htc with rfl | htc
  · exact ⟨news, "News:" ++ "n1", rfl, rfl⟩
  · cases htc

/-- Claim C7: when a response carries a call whose name matches a
registered candidate type but whose payload fails that type's
validation (after a prefix of decodable calls), the decode sequence
raises the validation error at that call's position, carrying the
candidate type's name (for a well-formed candidate, as pydantic
models are) and the underlying cause, without retry or suppression;
no instance is yielded for that call, and instances already yielded
for earlier calls are not retracted. -/
theorem decode_validation_failure {C R : Type} (pb : ParallelBase C R)
    (pre rest : List ToolCall) (bad : ToolCall) (m : CandidateType C R)
    (e : ValidationErr) (ctx : Option C) (strict : Option Bool)
    (hpre : ∀ tc ∈ pre, ∃ m v, dictGet pb.registry tc.function.name = some m ∧
        m.validate tc.function.arguments ctx strict = Except.ok v)
    (hm : dictGet pb.registry bad.function.name = some m)
    (hwf : m.WF)
    (hval : m.validate bad.function.arguments ctx strict = Except.error e) :
    ∃ outs : List R,
      runGen (pb.from_response (Response.ofCalls (pre ++ bad :: rest))
          Mode.PARALLEL_TOOLS ctx strict)
        = (outs, some (DecodeError.validationError e)) ∧
      e.typeName = m.name ∧
      outs.length = pre.length ∧
      (∀ (i : Nat) (tc : ToolCall), pre[i]? = some tc →
        ∃ m0, dictGet pb.registry tc.function.name = some m0 ∧
          ∃ v, outs[i]? = some v ∧
            m0.validate tc.function.arguments ctx strict = Except.ok v) ∧
      observe pre.length (pb.from_response (Response.ofCalls (pre ++ bad :: rest))
          Mode.PARALLEL_TOOLS ctx strict)
        = (outs, none) := by
  rcases runCalls_ok pb ctx strict pre hpre with ⟨hp2, hp1, hpp⟩
  have hbadrun : runCalls pb (bad :: rest) ctx strict
      = ([], some (DecodeError.validationError e)) := by
    simp [runCalls, hm, hval]
  have happ := runCalls_append pb ctx strict pre (bad :: rest) hpre
  refine ⟨(runCalls pb pre ctx strict).1, ?_, hwf _ _ _ _ hval, hp1, hpp, ?_⟩
  · rw [runGen_from_response, happ, hbadrun]
    simp
  · rw [observe_from_response, List.take_left]
    exact Prod.ext rfl hp2

theorem weather_wf : weather.WF := by
  intro args c s e h
  by_cases ha : args = ""
  · simp [weather, ha] at h
    subst h
    rfl
  · simp [weather, ha] at h

theorem decode_validation_failure_witness :
    ∃ outs : List String,
      runGen (pbW.from_response (Response.ofCalls ([callN "n1"] ++ callW "" :: []))
          Mode.PARALLEL_TOOLS none none)
        = (outs, some (DecodeError.validationError
            { typeName := "Weather", cause := "city field required" })) ∧
      ValidationErr.typeName
          { typeName := "Weather", cause := "city field required" }
        = weather.name ∧
      outs.length = [callN "n1"].length ∧
      (∀ (i : Nat) (tc : ToolCall), [callN "n1"][i]? = some tc →
        ∃ m0, dictGet pbW.registry tc.function.name = some m0 ∧
          ∃ v, outs[i]? = some v ∧
            m0.validate tc.function.arguments none none = Except.ok v) ∧
      observe [callN "n1"].length
          (pbW.from_response (Response.ofCalls ([callN "n1"] ++ callW "" :: []))
            Mode.PARALLEL_TOOLS none none)
        = (outs, none) := by
  refine decode_validation_failure pbW [callN "n1"] [] (callW "") weather
    { typeName := "Weather", cause := "city field required" } none none
    ?_ rfl weather_wf rfl
  intro tc htc
  rcases List.mem_cons.mp htc with rfl | htc
  · exact ⟨news, "News:" ++ "n1", rfl, rfl⟩
  · cases htc

end Instructor
